import Mathlib

/-!
Shallow embedding of `src/parallel/distributed.py` and proofs about its
behaviour.  Python values are modelled with `PyVal`, scalar tensor payloads
with `ℚ`, the multiprocessing result queue with a `List` of messages, and
generators with pure functions returning the list of yielded values.
-/

/-- A Python value as it can appear in a worker step-function result:
a host float, a scalar tensor carrying an on-device flag, or some other
non-tensor object (identified by a tag). -/
inductive PyVal
  | float (q : ℚ)
  | tensor (onDevice : Bool) (q : ℚ)
  | obj (n : Nat)
  deriving DecidableEq, Repr

/-- A step-function output (`output` in `DistributedTrainer._runner`,
lines 130-153): Python `None`, a single value, or a tuple of values. -/
inductive StepOutput
  | none
  | val (v : PyVal)
  | tup (vs : List PyVal)
  deriving DecidableEq, Repr

/-- The per-element conversion of the tuple branch of `_runner`
(lines 142-150): `float(e.detach().cpu())` when `e` is a cuda tensor,
otherwise the element passes through unchanged. -/
def convert_elem (v : PyVal) : PyVal :=
  match v with
  | PyVal.tensor true q => PyVal.float q
  | v => v

/-- The output-handling block of `DistributedTrainer._runner`
(lines 139-150): a single tensor is rewritten to a 1-tuple of its host
float only when it is cuda-resident; a tuple is converted element-wise;
anything else (including `None` and host tensors) is left unchanged. -/
def process_output (o : StepOutput) : StepOutput :=
  match o with
  | StepOutput.val (PyVal.tensor onDev q) =>
      if onDev then StepOutput.tup [PyVal.float q]
      else StepOutput.val (PyVal.tensor onDev q)
  | StepOutput.tup vs => StepOutput.tup (vs.map convert_elem)
  | o => o

/-- Lines 152-153 of `_runner`: after conversion, the output is put on the
shared queue exactly when it is not `None`.  The returned list is the
sequence of queue puts this epoch performs. -/
def runner_push (o : StepOutput) : List StepOutput :=
  match process_output o with
  | StepOutput.none => []
  | o2 => [o2]

/-- Length of the shortest tuple among `x`, matching the truncation of
Python `zip`. -/
def minLen : List (List α) → Nat
  | [] => 0
  | [l] => l.length
  | l :: ls => min l.length (minLen ls)

/-- Python `zip(*x)` for a list `x` of tuples: position `i` (for `i` below
every tuple length) collects the `i`-th element of each tuple, in order. -/
def zipStar (x : List (List α)) : List (List α) :=
  (List.range (minLen x)).map (fun i => x.filterMap (fun l => l[i]?))

/-- `default_collator_fn` (lines 239-240): transpose the list of worker
result tuples with `zip(*x)` and average each position. -/
def default_collator_fn (x : List (List ℚ)) : List ℚ :=
  (zipStar x).map (fun e => e.sum / (e.length : ℚ))

/-- A message on the shared result queue: `none` is the completion
sentinel, `some r` a worker result tuple. -/
abbrev Msg := Option (List ℚ)

/-- The drain loop of `DistributedTrainer.__iter__` (lines 181-190) run
against a queue contents list `msgs`: sentinels bump the terminate
counter, results are buffered, and once the buffer holds `world` results
they are collated and yielded.  The returned list is the sequence of
yielded aggregates. -/
def drainLoop (world : Nat) : List Msg → Nat → List (List ℚ) → List (List ℚ)
  | [], _, _ => []
  | msg :: rest, tc, buf =>
    if tc < world then
      match msg with
      | Option.none => drainLoop world rest (tc + 1) buf
      | Option.some r =>
        let buf2 := buf ++ [r]
        if buf2.length = world then
          default_collator_fn buf2 :: drainLoop world rest tc []
        else
          drainLoop world rest tc buf2
    else []

/-- Python return semantics of a `try/except/finally` whose `finally`
block itself executes a `return`: that return value supersedes any
pending return from the `try` body or the `except` handler. -/
def pyFinallyReturn (_pendingReturn : Option α) (finallyReturn : α) : α :=
  finallyReturn

/-- `socket_in_use` (lines 229-236).  `bindRaises` records whether
`s.bind(("localhost", port))` raised `OSError`.  The `except` handler
would return `True` in that case, but the `finally` block unconditionally
executes `return False`, which supersedes it. -/
def socket_in_use (bindRaises : Bool) : Bool :=
  pyFinallyReturn (if bindRaises then some true else Option.none) false

/-- The checks `DistributedTrainer.__init__` performs before any worker
process is spawned (lines 96-106): only the port assertion on line 106.
The batch size and device count are stored but not examined. -/
def DistributedTrainer_init_checks (_batch_size _device_count : Nat)
    (portBindRaises : Bool) : Except String Unit :=
  if socket_in_use portBindRaises then Except.error "Port is already in use."
  else Except.ok ()

/-- `DistributedDataLoader.__init__` (lines 36-66), which runs inside a
spawned worker (`_runner`, line 118): asserts
`batch_size % device_count == 0` (line 50) and then divides the batch
size by the device count (line 51), returning the per-device batch
size. -/
def DistributedDataLoader_init (batch_size device_count _rank : Nat) :
    Except String Nat :=
  if batch_size % device_count = 0 then Except.ok (batch_size / device_count)
  else Except.error "(batch size) % (device count) != 0"

/-- Contents of the shared queue as seen from one worker, oldest first. -/
abbrev WorkerQueue := List (Option StepOutput)

/-- A worker-side statement block: it extends the queue with its puts and
reports whether it raised. -/
abbrev Stmt := WorkerQueue → WorkerQueue × Bool

/-- Sequencing of two Python statement blocks: the second runs only when
the first did not raise. -/
def stmtSeq (a b : Stmt) : Stmt := fun q =>
  let r := a q
  if r.2 then r else b r.1

/-- Python `try/finally`: the `finally` block runs whether or not the body
raised, and an exception escapes when either part raised. -/
def tryFinallyStmt (body fin : Stmt) : Stmt := fun q =>
  let r := body q
  let r2 := fin r.1
  (r2.1, r.2 || r2.2)

/-- `dist.init_process_group(...)` (lines 158-163): puts nothing; raises
exactly when joining the process group fails. -/
def initStmt (joinFails : Bool) : Stmt := fun q => (q, joinFails)

/-- `self._runner(rank)` (line 164) viewed from the queue: it performs the
puts `puts` and then possibly raises (an exception inside the step
function). -/
def runnerStmt (puts : WorkerQueue) (stepRaises : Bool) : Stmt :=
  fun q => (q ++ puts, stepRaises)

/-- `dist.destroy_process_group()` (line 166); the transport contract of
the spec gives `destroy()` no failure mode, so it is modelled as never
raising. -/
def destroyStmt : Stmt := fun q => (q, false)

/-- `self._queue.put(None)` (line 167): enqueues the completion
sentinel. -/
def putNoneStmt : Stmt := fun q => (q ++ [Option.none], false)

/-- `DistributedTrainer._worker` (lines 156-167):
`try: init_process_group; _runner(rank)`
`finally: destroy_process_group(); _queue.put(None)`. -/
def worker_stmt (joinFails : Bool) (puts : WorkerQueue) (stepRaises : Bool) :
    Stmt :=
  tryFinallyStmt (stmtSeq (initStmt joinFails) (runnerStmt puts stepRaises))
    (stmtSeq destroyStmt putNoneStmt)

/-- The `_move` closure of `PrefetchLoader._to_cuda` (lines 267-268):
`item.cuda(non_blocking=True)` when the item is a tensor, otherwise the
item unchanged. -/
def move_item (v : PyVal) : PyVal :=
  match v with
  | PyVal.tensor _ q => PyVal.tensor true q
  | v => v

/-- `PrefetchLoader._to_cuda` (lines 266-270): move every tensor element
of the batch to the device, leaving non-tensor elements unchanged. -/
def to_cuda (b : List PyVal) : List PyVal := b.map move_item

/-- The `for batch in self.loader` loop of `PrefetchLoader.__iter__`
(lines 252-262).  The state is the `first` flag and the local `data`
(`Option.none` while still unbound).  Returns the values yielded inside
the loop and the final value of `data`. -/
def prefetch_iter_aux (f : List PyVal → List PyVal) :
    List (List PyVal) → Bool → Option (List PyVal) →
    List (List PyVal) × Option (List PyVal)
  | [], _, data => ([], data)
  | b :: rest, first, data =>
    let next_data := f b
    let yielded := if first then [] else data.toList
    let r := prefetch_iter_aux f rest false (some next_data)
    (yielded ++ r.1, r.2)

/-- `PrefetchLoader.__iter__` (lines 248-264) as the sequence of yielded
batches: run the loop, then execute the trailing `yield data` (line 264),
which raises `UnboundLocalError` when the loop body never ran and `data`
is still unbound. -/
def PrefetchLoader_iter (f : List PyVal → List PyVal)
    (batches : List (List PyVal)) : Except String (List (List PyVal)) :=
  let r := prefetch_iter_aux f batches true Option.none
  match r.2 with
  | Option.none => Except.error "UnboundLocalError: local variable data"
  | Option.some d => Except.ok (r.1 ++ [d])

/-- `PrefetchLoader.__len__` (lines 272-273): `len(self.loader)`. -/
def PrefetchLoader_len (loaderBatches : List (List PyVal)) : Nat :=
  loaderBatches.length

/-- Where a process-wide output stream currently points. -/
inductive Sink
  | real
  | devnull
  deriving DecidableEq, Repr

/-- The pair `(sys.stdout, sys.stderr)`. -/
structure IOState where
  stdout : Sink
  stderr : Sink
  deriving DecidableEq, Repr

/-- `suppress_output` (lines 22-33) wrapped around a body: save both
streams, point both at the null sink, run the body (which may itself
reassign the streams and may raise), and in the `finally` block restore
the saved streams whether or not the body raised.  The boolean reports
whether the body raised. -/
def suppress_output_run (body : IOState → IOState × Bool) (s : IOState) :
    IOState × Bool :=
  let stdout_saved := s.stdout
  let stderr_saved := s.stderr
  let r := body { stdout := Sink.devnull, stderr := Sink.devnull }
  ({ stdout := stdout_saved, stderr := stderr_saved }, r.2)

/-- The step-function call site of `_runner` (lines 133-137): rank 0 calls
the user function directly, every other rank calls it under
`suppress_output`. -/
def invoke_step (rank : Nat) (body : IOState → IOState × Bool) (s : IOState) :
    IOState × Bool :=
  if rank = 0 then body s else suppress_output_run body s

lemma drainLoop_nil (world tc : Nat) (buf : List (List ℚ)) :
    drainLoop world [] tc buf = [] := by
  simp [drainLoop]

lemma drainLoop_cons_none (world : Nat) (rest : List Msg) (tc : Nat)
    (buf : List (List ℚ)) (h : tc < world) :
    drainLoop world (Option.none :: rest) tc buf =
      drainLoop world rest (tc + 1) buf := by
  simp only [drainLoop, h, if_true]

lemma drain_round (world : Nat) (tail : List Msg) :
    ∀ (rs buf : List (List ℚ)) (tc : Nat),
      tc < world → buf.length + rs.length = world → rs ≠ [] →
      drainLoop world (rs.map some ++ tail) tc buf =
        default_collator_fn (buf ++ rs) :: drainLoop world tail tc [] := by
  intro rs
  induction rs with
  | nil => intro buf tc _ _ hne; exact absurd rfl hne
  | cons r rs ih =>
    intro buf tc htc hlen _
    cases rs with
    | nil =>
      have hl : (buf ++ [r]).length = world := by
        simp only [List.length_append, List.length_singleton]
        simpa using hlen
      simp only [List.map_cons, List.map_nil, List.nil_append, List.cons_append,
        drainLoop, htc, if_true, hl, if_pos]
      simp
    | cons r2 rs2 =>
      have hlt : ¬ (buf ++ [r]).length = world := by
        simp only [List.length_append, List.length_singleton, List.length_cons,
          List.length_nil] at hlen ⊢
        omega
      have hih := ih (buf ++ [r]) tc htc (by
        simp only [List.length_append, List.length_singleton, List.length_cons,
          List.length_nil] at hlen ⊢
        omega) (List.cons_ne_nil _ _)
      calc drainLoop world ((r :: r2 :: rs2).map some ++ tail) tc buf
          = drainLoop world ((r2 :: rs2).map some ++ tail) tc (buf ++ [r]) := by
            simp only [List.map_cons, List.cons_append, drainLoop, htc, if_true,
              hlt, if_false]
        _ = default_collator_fn (buf ++ r :: r2 :: rs2) ::
              drainLoop world tail tc [] := by
            rw [hih]
            congr 1
            simp

lemma drain_replicate_none (world : Nat) :
    ∀ (n tc : Nat) (buf : List (List ℚ)), tc + n = world →
      drainLoop world (List.replicate n (Option.none : Msg)) tc buf = [] := by
  intro n
  induction n with
  | zero => intro tc buf _; simp [drainLoop]
  | succ n ih =>
    intro tc buf h
    have htc : tc < world := by omega
    rw [List.replicate_succ, drainLoop_cons_none world _ tc buf htc]
    exact ih (tc + 1) buf (by omega)

lemma drain_count (world : Nat) (hW : 0 < world) :
    ∀ (epochs : Nat) (results : List (List ℚ)),
      results.length = world * epochs →
      (drainLoop world
        (results.map some ++ List.replicate world (Option.none : Msg))
        0 []).length = epochs := by
  intro epochs
  induction epochs with
  | zero =>
    intro results h
    have hr : results = [] := List.length_eq_zero.mp (by simpa using h)
    subst hr
    simp [drain_replicate_none world world 0 [] (by omega)]
  | succ e ih =>
    intro results h
    have hge : world ≤ results.length := by
      rw [h, Nat.mul_succ]; omega
    have htake : (results.take world).length = world := by
      rw [List.length_take]; omega
    have hdrop : (results.drop world).length = world * e := by
      rw [List.length_drop, h, Nat.mul_succ]; omega
    have hne : results.take world ≠ [] := by
      intro hnil
      rw [hnil] at htake
      simp only [List.length_nil] at htake
      omega
    have hsplit : results.map some =
        (results.take world).map some ++ (results.drop world).map some := by
      rw [← List.map_append, List.take_append_drop]
    rw [hsplit, List.append_assoc,
      drain_round world _ (results.take world) [] 0 hW (by simpa using htake) hne,
      List.length_cons, ih (results.drop world) hdrop]

/-- Claim C1: for every worker count `W ≥ 1` and epoch count `E ≥ 1`, when
every worker pushes one result tuple per epoch (so the queue carries
`W * E` result messages, followed by the `W` completion sentinels the
epoch-end barrier orders after them), the drain loop of
`DistributedTrainer.__iter__` yields exactly `E` aggregated results and
then terminates. -/
theorem distributedTrainer_iter_yields_epoch_results
    (W E : Nat) (hW : 1 ≤ W) (hE : 1 ≤ E)
    (results : List (List ℚ)) (hlen : results.length = W * E) :
    (drainLoop W (results.map some ++ List.replicate W (Option.none : Msg))
      0 []).length = E :=
  drain_count W hW E results hlen

/-- Witness for C1 at `W = 2`, `E = 2` with four result messages. -/
theorem distributedTrainer_iter_yields_epoch_results_witness :
    (drainLoop 2 ([[(1 : ℚ)], [2], [3], [4]].map some ++
      List.replicate 2 (Option.none : Msg)) 0 []).length = 2 :=
  distributedTrainer_iter_yields_epoch_results 2 2 (by omega) (by omega)
    [[(1 : ℚ)], [2], [3], [4]] rfl

/-- The queue contents of the C7 scenario: `W = 2`, `E = 3`, every epoch
worker 0 pushes `(0.0,)` and worker 1 pushes `(1.0,)`, then both push
their sentinel. -/
def scenarioMsgs : List Msg :=
  [some [0], some [1], some [0], some [1], some [0], some [1],
    Option.none, Option.none]

/-- Claim C7 counterexample: in the `W = 2`, `E = 3` scenario where the
step function of each worker returns the 1-tuple of its rank as a host
float, the iterator does not yield three copies of `(0.5, 0.5)` — the
aggregated tuples have a single position, not one per worker. -/
theorem scenario_not_pair_halves :
    drainLoop 2 scenarioMsgs 0 [] ≠ List.replicate 3 [(1 : ℚ) / 2, 1 / 2] := by
  intro h
  have hlen := congrArg (fun l => (l.headD []).length) h
  norm_num [scenarioMsgs, drainLoop, default_collator_fn, zipStar, minLen,
    List.range_succ, List.replicate, List.filterMap_cons,
    List.getElem?_cons_zero, List.getElem?_cons_succ] at hlen

/-- Claim C7 amended: in the `W = 2`, `E = 3` scenario where the step
function of each worker returns the 1-tuple of its rank as a host float, consuming
the iterator yields exactly 3 tuples, each equal to `(0.5,)` — the mean
of ranks 0 and 1 in the single position of the tuple. -/
theorem scenario_yields_half_singletons :
    drainLoop 2 scenarioMsgs 0 [] = List.replicate 3 [(1 : ℚ) / 2] := by
  norm_num [scenarioMsgs, drainLoop, default_collator_fn, zipStar, minLen,
    List.range_succ, List.replicate, List.filterMap_cons,
    List.getElem?_cons_zero, List.getElem?_cons_succ]

/-- Claim C2 (code bug): evaluating `socket_in_use` at the failing input —
a port whose bind raises `OSError` because it is already bound — yields
`false`, since the `return False` in the `finally` block supersedes the
`return True` of the `except OSError` handler; on a free port it also
yields `false`. -/
theorem socket_in_use_always_false :
    socket_in_use true = false ∧ socket_in_use false = false :=
  ⟨rfl, rfl⟩

/-- Claim C3 counterexample: with batch size 3 and device count 2
(so `3 % 2 ≠ 0`) and a free port, the `DistributedTrainer` construction
checks — the only checks that run before any worker process is spawned —
succeed instead of raising a configuration error. -/
theorem batch_check_not_pre_spawn :
    3 % 2 ≠ 0 ∧ DistributedTrainer_init_checks 3 2 false = Except.ok () :=
  ⟨by omega, rfl⟩

/-- Claim C3 amended: for every batch size `B` and device count `W ≥ 1`
with `B % W ≠ 0`, the sharding check raises its configuration error, but
inside each spawned worker process when `_runner` constructs
`DistributedDataLoader` — not before any process is spawned. -/
theorem distributedDataLoader_rejects_unbalanced
    (B W rank : Nat) (hW : 0 < W) (h : B % W ≠ 0) :
    DistributedDataLoader_init B W rank =
      Except.error "(batch size) % (device count) != 0" := by
  simp [DistributedDataLoader_init, h]

/-- Witness for the amended C3 at `B = 3`, `W = 2`. -/
theorem distributedDataLoader_rejects_unbalanced_witness :
    DistributedDataLoader_init 3 2 0 =
      Except.error "(batch size) % (device count) != 0" :=
  distributedDataLoader_rejects_unbalanced 3 2 0 (by omega) (by omega)

/-- Claim C4: on every exit path of `_worker` — normal completion, an
exception inside the step function, or a failure to join the process
group — the completion sentinel `None` is enqueued on the shared result
queue: the whole queue effect of the worker is its result puts (none when
the join failed) followed by the sentinel. -/
theorem worker_always_enqueues_sentinel
    (joinFails stepRaises : Bool) (puts q : WorkerQueue) :
    (worker_stmt joinFails puts stepRaises q).1 =
      q ++ (if joinFails then [] else puts) ++ [Option.none] ∧
    Option.none ∈ (worker_stmt joinFails puts stepRaises q).1 := by
  constructor
  · cases joinFails <;>
      simp [worker_stmt, tryFinallyStmt, stmtSeq, initStmt, runnerStmt,
        destroyStmt, putNoneStmt]
  · cases joinFails <;>
      simp [worker_stmt, tryFinallyStmt, stmtSeq, initStmt, runnerStmt,
        destroyStmt, putNoneStmt]

/-- Claim C8: output handling in `_runner` — a device-resident scalar
tensor becomes a host float wrapped in a 1-tuple; a tuple is converted
element-wise, device tensors becoming host floats and non-tensor elements
passing through unchanged; every non-`None` output (after conversion) is
pushed onto the shared result queue, and `None` is not pushed. -/
theorem runner_output_handling :
    (∀ q : ℚ, runner_push (StepOutput.val (PyVal.tensor true q)) =
      [StepOutput.tup [PyVal.float q]]) ∧
    (∀ vs : List PyVal, runner_push (StepOutput.tup vs) =
      [StepOutput.tup (vs.map convert_elem)]) ∧
    (∀ q : ℚ, convert_elem (PyVal.tensor true q) = PyVal.float q) ∧
    (∀ q : ℚ, convert_elem (PyVal.float q) = PyVal.float q) ∧
    (∀ n : Nat, convert_elem (PyVal.obj n) = PyVal.obj n) ∧
    runner_push StepOutput.none = [] ∧
    (∀ o : StepOutput, o ≠ StepOutput.none →
      runner_push o = [process_output o]) := by
  refine ⟨fun q => rfl, fun vs => rfl, fun q => rfl, fun q => rfl,
    fun n => rfl, rfl, ?_⟩
  intro o ho
  cases o with
  | none => exact absurd rfl ho
  | val v =>
    cases v with
    | float q => rfl
    | tensor b q => cases b <;> rfl
    | obj n => rfl
  | tup vs => rfl

/-- Witness for C8: the non-`None` push rule applied to a host float. -/
theorem runner_output_handling_witness :
    runner_push (StepOutput.val (PyVal.float 3)) =
      [process_output (StepOutput.val (PyVal.float 3))] :=
  runner_output_handling.2.2.2.2.2.2 (StepOutput.val (PyVal.float 3))
    (fun h => StepOutput.noConfusion h)

/-- Claim C10: a single host-resident scalar tensor returned by the step
function is enqueued onto the result queue as-is — neither converted to a
host float nor wrapped in a 1-tuple — while a device-resident single
tensor is converted and wrapped. -/
theorem host_tensor_enqueued_unconverted (q : ℚ) :
    runner_push (StepOutput.val (PyVal.tensor false q)) =
      [StepOutput.val (PyVal.tensor false q)] ∧
    runner_push (StepOutput.val (PyVal.tensor true q)) =
      [StepOutput.tup [PyVal.float q]] :=
  ⟨rfl, rfl⟩

/-- Claim C9: during the step-function call, suppression applies exactly
to ranks other than 0 — the body on such ranks observes both streams
pointing at the null sink, while rank 0 runs on the unmodified state —
and afterwards both streams are restored to their prior values on every
path, including when the body raises. -/
theorem suppress_output_rank_discipline
    (rank : Nat) (body : IOState → IOState × Bool) (s : IOState)
    (h : rank ≠ 0) :
    (invoke_step rank body s).1 = s ∧
    (invoke_step rank body s).2 =
      (body { stdout := Sink.devnull, stderr := Sink.devnull }).2 ∧
    invoke_step 0 body s = body s := by
  refine ⟨?_, ?_, ?_⟩
  · simp [invoke_step, h, suppress_output_run]
  · simp [invoke_step, h, suppress_output_run]
  · simp [invoke_step]

/-- Witness for C9 at rank 1 with a body that raises. -/
theorem suppress_output_rank_discipline_witness :
    (invoke_step 1 (fun st => (st, true))
      { stdout := Sink.real, stderr := Sink.real }).1 =
      { stdout := Sink.real, stderr := Sink.real } :=
  (suppress_output_rank_discipline 1 (fun st => (st, true))
    { stdout := Sink.real, stderr := Sink.real } (by omega)).1

lemma prefetch_iter_aux_run (f : List PyVal → List PyVal) :
    ∀ (bs : List (List PyVal)) (d : List PyVal),
      prefetch_iter_aux f bs false (some d) =
        ((d :: bs.map f).dropLast, some ((bs.map f).getLastD d)) := by
  intro bs
  induction bs with
  | nil => intro d; simp [prefetch_iter_aux]
  | cons b rest ih =>
    intro d
    simp only [prefetch_iter_aux, Bool.false_eq_true, if_false,
      Option.toList_some, ih (f b), List.map_cons, List.singleton_append]
    rw [List.dropLast_cons₂, List.getLastD_cons]

lemma dropLast_append_getLastD :
    ∀ (l : List α) (a : α), (a :: l).dropLast ++ [l.getLastD a] = a :: l := by
  intro l
  induction l with
  | nil => intro a; simp
  | cons b l ih =>
    intro a
    simp only [List.dropLast_cons₂, List.getLastD_cons, List.cons_append, ih b]

lemma PrefetchLoader_iter_nonempty (f : List PyVal → List PyVal)
    (b : List PyVal) (rest : List (List PyVal)) :
    PrefetchLoader_iter f (b :: rest) = Except.ok ((b :: rest).map f) := by
  unfold PrefetchLoader_iter
  simp only [prefetch_iter_aux, if_true, prefetch_iter_aux_run f rest (f b),
    List.map_cons, List.nil_append]
  rw [dropLast_append_getLastD]

/-- Claim C5 counterexample: on an empty wrapped loader, the trailing
`yield data` of `PrefetchLoader.__iter__` (line 264) raises
`UnboundLocalError` instead of yielding the (empty) sequence of batches
of the underlying loader. -/
theorem prefetchLoader_empty_raises :
    PrefetchLoader_iter to_cuda [] =
      Except.error "UnboundLocalError: local variable data" := rfl

/-- Claim C5 amended: for every wrapped loader with at least one batch,
iterating `PrefetchLoader` yields exactly the batches of the underlying
loader, in the same order and with the same count, each with its tensor
elements moved to the device and its non-tensor elements unchanged, and
`len(PrefetchLoader)` equals the length of the wrapped loader; the
sequence is restartable since each pass is the same pure function of the
wrapped batches.  (On an empty wrapped loader, iteration instead raises
`UnboundLocalError`.) -/
theorem prefetchLoader_yields_batches
    (batches : List (List PyVal)) (h : batches ≠ []) :
    PrefetchLoader_iter to_cuda batches = Except.ok (batches.map to_cuda) ∧
    (batches.map to_cuda).length = batches.length ∧
    PrefetchLoader_len batches = batches.length ∧
    (∀ (b : Bool) (q : ℚ), move_item (PyVal.tensor b q) = PyVal.tensor true q) ∧
    (∀ q : ℚ, move_item (PyVal.float q) = PyVal.float q) ∧
    (∀ n : Nat, move_item (PyVal.obj n) = PyVal.obj n) := by
  refine ⟨?_, by simp, rfl, fun b q => rfl, fun q => rfl, fun n => rfl⟩
  cases batches with
  | nil => exact absurd rfl h
  | cons b rest => exact PrefetchLoader_iter_nonempty to_cuda b rest

/-- Witness for the amended C5 at a one-batch loader holding a host
tensor and a non-tensor element. -/
theorem prefetchLoader_yields_batches_witness :
    PrefetchLoader_iter to_cuda [[PyVal.tensor false 1, PyVal.obj 7]] =
      Except.ok [[PyVal.tensor true 1, PyVal.obj 7]] := by
  have h := prefetchLoader_yields_batches
    [[PyVal.tensor false 1, PyVal.obj 7]] (by simp)
  simpa [to_cuda, move_item] using h.1

lemma map_congr_mem : ∀ (l : List α) (f g : α → β),
    (∀ a ∈ l, f a = g a) → l.map f = l.map g := by
  intro l f g
  induction l with
  | nil => intro _; rfl
  | cons a l ih =>
    intro h
    simp only [List.map_cons]
    rw [h a (by simp), ih (fun b hb => h b (by simp [hb]))]

lemma minLen_const (L : Nat) :
    ∀ (x : List (List ℚ)), x ≠ [] → (∀ l ∈ x, l.length = L) →
      minLen x = L := by
  intro x
  induction x with
  | nil => intro h _; exact absurd rfl h
  | cons l ls ih =>
    intro _ hlen
    cases ls with
    | nil => simpa [minLen] using hlen l (by simp)
    | cons l2 ls2 =>
      have h1 : l.length = L := hlen l (by simp)
      have h2 : minLen (l2 :: ls2) = L :=
        ih (by simp) (fun a ha => hlen a (by simp [ha]))
      show min l.length (minLen (l2 :: ls2)) = L
      rw [h1, h2, min_self]

lemma filterMap_getElem (L i : Nat) (hi : i < L) :
    ∀ (x : List (List ℚ)), (∀ l ∈ x, l.length = L) →
      x.filterMap (fun l => l[i]?) = x.map (fun l => l.getD i 0) := by
  intro x
  induction x with
  | nil => intro _; rfl
  | cons l ls ih =>
    intro h
    have hl : i < l.length := by rw [h l (by simp)]; exact hi
    have hget : l[i]? = some (l.getD i 0) := by
      rw [List.getElem?_eq_getElem hl, List.getD_eq_getElem l 0 hl]
    simp only [List.filterMap_cons, hget, List.map_cons]
    rw [ih (fun a ha => h a (by simp [ha]))]

lemma default_collator_fn_formula (L : Nat) (x : List (List ℚ))
    (hne : x ≠ []) (hlen : ∀ l ∈ x, l.length = L) :
    default_collator_fn x =
      (List.range L).map
        (fun i => (x.map (fun l => l.getD i 0)).sum / (x.length : ℚ)) := by
  unfold default_collator_fn zipStar
  rw [minLen_const L x hne hlen, List.map_map]
  apply map_congr_mem
  intro i hi
  have hi2 : i < L := List.mem_range.mp hi
  simp only [Function.comp_apply]
  rw [filterMap_getElem L i hi2 x hlen]
  simp

/-- Claim C6: `default_collator_fn` maps every non-empty list of
equal-length tuples of rationals to the tuple of position-wise arithmetic
means — in particular `[(1, 2), (3, 4)]` to `(2.0, 3.0)` — and its output
is unchanged under any permutation of the input list. -/
theorem default_collator_fn_mean_and_perm :
    default_collator_fn [[(1 : ℚ), 2], [3, 4]] = [2, 3] ∧
    (∀ (L : Nat) (x y : List (List ℚ)), x ≠ [] →
      (∀ l ∈ x, l.length = L) →
      (default_collator_fn x =
        (List.range L).map
          (fun i => (x.map (fun l => l.getD i 0)).sum / (x.length : ℚ)) ∧
      (x.Perm y → default_collator_fn y = default_collator_fn x))) := by
  constructor
  · norm_num [default_collator_fn, zipStar, minLen, List.range_succ,
      List.filterMap_cons, List.getElem?_cons_zero, List.getElem?_cons_succ]
  · intro L x y hne hlen
    refine ⟨default_collator_fn_formula L x hne hlen, ?_⟩
    intro hperm
    have hney : y ≠ [] := by
      intro hy
      subst hy
      exact hne hperm.eq_nil
    have hleny : ∀ l ∈ y, l.length = L :=
      fun l hl => hlen l (hperm.mem_iff.mpr hl)
    rw [default_collator_fn_formula L y hney hleny,
      default_collator_fn_formula L x hne hlen]
    apply map_congr_mem
    intro i _
    rw [← (hperm.map (fun l => l.getD i 0)).sum_eq, ← hperm.length_eq]

/-- Witness for C6: permutation invariance of the aggregation at the
two-worker example. -/
theorem default_collator_fn_mean_and_perm_witness :
    default_collator_fn [[(3 : ℚ), 4], [1, 2]] =
      default_collator_fn [[(1 : ℚ), 2], [3, 4]] :=
  (default_collator_fn_mean_and_perm.2 2 [[(1 : ℚ), 2], [3, 4]]
    [[(3 : ℚ), 4], [1, 2]] (by simp)
    (by
      intro l hl
      rcases List.mem_cons.mp hl with rfl | hl2
      · rfl
      · rcases List.mem_singleton.mp hl2 with rfl
        rfl)).2
    (List.Perm.swap ([3, 4] : List ℚ) [1, 2] [])
